import Mathlib

/-!
Verification development for the 4x4 MiniChess rules engine
(`src/minichess_ia/minichess.py`, with the `is_king_captured` variant of
`src/minichess_cam-ia/minichess.py` embedded separately).

The board is modelled as a total function from integer coordinates to a
character, mirroring the Python 4x4 list-of-lists; every access the source
performs is guarded by `is_valid_position`, so only the in-range part of the
function is ever relevant.  Pieces use the source's character codes
(uppercase white, lowercase black, `.` empty).  The in-place mutation of
`self.current_player` inside `is_king_attacked` is modelled by the explicit
state-passing loop `iskaLoop`, whose second component is the state of the
live object after the query returns.
-/

set_option maxRecDepth 4000

/-- The 4x4 board: a total map from (row, col) integer coordinates to a
piece character.  Models `self.board` of the Python class. -/
abbrev Board : Type := Int → Int → Char

/-- Builds a `Board` from a list of rows, as in the Python board literal.
Cells outside the given rows read as `'.'`; all source accesses are
in-range after `is_valid_position` checks. -/
def fromRows (rows : List (List Char)) : Board :=
  fun r c => (((rows[r.toNat]?).getD [])[c.toNat]?).getD '.'

/-- Functional update of one cell, modelling `self.board[r][c] = p`. -/
def boardSet (b : Board) (r c : Int) (p : Char) : Board :=
  fun r' c' => if r' = r ∧ c' = c then p else b r' c'

/-- `MiniChess.get_piece_color`: `'w'` for uppercase, `'b'` for lowercase,
`None` for the empty marker. -/
def get_piece_color (piece : Char) : Option Char :=
  if piece = '.' then none
  else if piece.isUpper then some 'w' else some 'b'

/-- `MiniChess.is_valid_position`: both coordinates in `[0, 4)`. -/
def is_valid_position (row col : Int) : Bool :=
  decide (0 ≤ row ∧ row < 4 ∧ 0 ≤ col ∧ col < 4)

/-- The opponent of a player, the expression `'b' if player == 'w' else 'w'`
inlined at several places in the source. -/
def opponent_of (player : Char) : Char :=
  if player = 'w' then 'b' else 'w'

/-- The 16 board squares in the row-major order of the source's
`for row in range(4): for col in range(4)` loops. -/
def allPositions : List (Int × Int) :=
  [(0,0),(0,1),(0,2),(0,3),
   (1,0),(1,1),(1,2),(1,3),
   (2,0),(2,1),(2,2),(2,3),
   (3,0),(3,1),(3,2),(3,3)]

/-- Rook directions, in source order. -/
def rook_directions : List (Int × Int) := [(0,1),(1,0),(0,-1),(-1,0)]

/-- Queen/king directions, in source order. -/
def all_directions : List (Int × Int) :=
  [(0,1),(1,0),(0,-1),(-1,0),(1,1),(1,-1),(-1,1),(-1,-1)]

/-- The game state: the fields set up by `MiniChess.__init__`.
`king_positions` models the two-key dict as a total function on colors. -/
structure MiniChess where
  board : Board
  current_player : Char
  move_history : List (((Int × Int) × (Int × Int)) × Char × Char)
  king_positions : Char → Int × Int
  ignore_check_rule : Bool

/-- The state built by `MiniChess.__init__` of `src/minichess_ia`. -/
def initial (ignore_check_rule : Bool) : MiniChess :=
  { board := fromRows [['r','q','k','r'],
                       ['p','p','p','p'],
                       ['P','P','P','P'],
                       ['R','Q','K','R']]
  , current_player := 'w'
  , move_history := []
  , king_positions := fun c => if c = 'w' then (3, 2) else (0, 2)
  , ignore_check_rule := ignore_check_rule }

/-- The pawn's forward direction: `-1 if self.current_player == 'w' else 1`. -/
def pawn_direction (player : Char) : Int := if player = 'w' then -1 else 1

/-- Pawn moves of `get_basic_moves`: one forward step onto an empty square,
plus the two diagonal captures onto enemy-occupied squares. -/
def pawn_moves (st : MiniChess) (row col : Int) : List (Int × Int) :=
  (if is_valid_position (row + pawn_direction st.current_player) col = true ∧
      st.board (row + pawn_direction st.current_player) col = '.'
   then [(row + pawn_direction st.current_player, col)] else [])
  ++ (([col - 1, col + 1].filter (fun nc =>
        decide (is_valid_position (row + pawn_direction st.current_player) nc = true ∧
                st.board (row + pawn_direction st.current_player) nc ≠ '.' ∧
                get_piece_color (st.board (row + pawn_direction st.current_player) nc)
                  ≠ some st.current_player))).map
      (fun nc => (row + pawn_direction st.current_player, nc)))

/-- One sliding direction of the rook/queen loops of `get_basic_moves`:
`for i in range(1, 4)` stepping by `(dr, dc)`, stopping at the border, at a
friendly piece, or just after capturing an enemy piece. -/
def slideAux (b : Board) (player : Char) (dr dc : Int) :
    Nat → Int → Int → List (Int × Int)
  | 0, _, _ => []
  | n + 1, r, c =>
    let nr := r + dr
    let nc := c + dc
    if is_valid_position nr nc = true then
      if b nr nc = '.' then (nr, nc) :: slideAux b player dr dc n nr nc
      else if get_piece_color (b nr nc) ≠ some player then [(nr, nc)]
      else []
    else []

/-- King moves of `get_basic_moves`: one step in each of the 8 directions
onto an empty or enemy-occupied square. -/
def king_moves (st : MiniChess) (row col : Int) : List (Int × Int) :=
  all_directions.filterMap (fun d =>
    if is_valid_position (row + d.1) (col + d.2) = true ∧
        (st.board (row + d.1) (col + d.2) = '.' ∨
         get_piece_color (st.board (row + d.1) (col + d.2)) ≠ some st.current_player)
    then some (row + d.1, col + d.2) else none)

/-- `MiniChess.get_basic_moves`: the geometric (pseudo-legal) moves of the
piece at `position`, with no check filtering. -/
def get_basic_moves (st : MiniChess) (position : Int × Int) : List (Int × Int) :=
  if st.board position.1 position.2 = '.' then []
  else if ¬(get_piece_color (st.board position.1 position.2) = some st.current_player)
    then []
  else if (st.board position.1 position.2).toLower = 'p' then
    pawn_moves st position.1 position.2
  else if (st.board position.1 position.2).toLower = 'r' then
    (rook_directions.map (fun d =>
      slideAux st.board st.current_player d.1 d.2 3 position.1 position.2)).flatten
  else if (st.board position.1 position.2).toLower = 'q' then
    (all_directions.map (fun d =>
      slideAux st.board st.current_player d.1 d.2 3 position.1 position.2)).flatten
  else if (st.board position.1 position.2).toLower = 'k' then
    king_moves st position.1 position.2
  else []

/-- The body of the `is_king_attacked` scan.  The source temporarily sets
`self.current_player` to the opponent before calling `get_basic_moves` and
restores it afterwards; the state passed along and finally returned models
the live object through those in-place mutations. -/
def iskaLoop (opponent : Char) (king_pos : Int × Int) :
    MiniChess → List (Int × Int) → Bool × MiniChess
  | st, [] => (false, st)
  | st, rc :: rest =>
    let piece := st.board rc.1 rc.2
    if piece ≠ '.' ∧ get_piece_color piece = some opponent then
      let original_player := st.current_player
      let st1 : MiniChess := { st with current_player := opponent }
      let moves := get_basic_moves st1 rc
      let st2 : MiniChess := { st1 with current_player := original_player }
      if king_pos ∈ moves then (true, st2)
      else iskaLoop opponent king_pos st2 rest
    else iskaLoop opponent king_pos st rest

/-- `MiniChess.is_king_attacked`, with the live object's state after the
call as second component. -/
def is_king_attacked_st (st : MiniChess) (player : Char) : Bool × MiniChess :=
  iskaLoop (opponent_of player) (st.king_positions player) st allPositions

/-- The boolean result of `MiniChess.is_king_attacked` (the query's net
effect on the live state is the identity, proved below). -/
def is_king_attacked (st : MiniChess) (player : Char) : Bool :=
  (is_king_attacked_st st player).1

/-- `MiniChess.is_check`: delegates to `is_king_attacked` on the live
object. -/
def is_check_st (st : MiniChess) (player : Char) : Bool × MiniChess :=
  is_king_attacked_st st player

/-- The boolean result of `MiniChess.is_check`. -/
def is_check (st : MiniChess) (player : Char) : Bool :=
  (is_check_st st player).1

/-- The mutation part of `MiniChess.make_move`, reached once every guard
has passed: relocate the piece, update `king_positions` if a king moved,
append to the history and flip the player. -/
def exec_move (st : MiniChess) (r1 c1 r2 c2 : Int) : MiniChess :=
  { board := boardSet (boardSet st.board r2 c2 (st.board r1 c1)) r1 c1 '.'
  , current_player := if st.current_player = 'w' then 'b' else 'w'
  , move_history :=
      st.move_history ++ [(((r1, c1), (r2, c2)), st.board r1 c1, st.board r2 c2)]
  , king_positions :=
      if (st.board r1 c1).toLower = 'k' then
        fun x => if x = st.current_player then (r2, c2) else st.king_positions x
      else st.king_positions
  , ignore_check_rule := st.ignore_check_rule }

/-- `MiniChess.make_move` specialised to `check_validity=False`, split out
because `get_valid_moves` calls it to simulate candidate moves (the source's
mutual recursion bottoms out exactly here). -/
def make_move_unchecked (st : MiniChess) (move : (Int × Int) × (Int × Int)) :
    Bool × MiniChess :=
  if ¬(is_valid_position move.1.1 move.1.2 = true ∧
       is_valid_position move.2.1 move.2.2 = true) then (false, st)
  else if st.board move.1.1 move.1.2 = '.' then (false, st)
  else if ¬(get_piece_color (st.board move.1.1 move.1.2) = some st.current_player)
    then (false, st)
  else (true, exec_move st move.1.1 move.1.2 move.2.1 move.2.2)

/-- `MiniChess.get_valid_moves`, with the live object's state after the call
as second component.  Each candidate is simulated on `temp_board`, a deep
copy of the live state (a plain value copy here), so the live state is
returned unchanged; `is_king_attacked` is evaluated on the copy. -/
def get_valid_moves_st (st : MiniChess) (position : Int × Int) :
    List (Int × Int) × MiniChess :=
  if st.ignore_check_rule = true ∧
      get_piece_color (st.board position.1 position.2) = some 'b' then
    (get_basic_moves st position, st)
  else
    ((get_basic_moves st position).filter (fun m =>
      !(is_king_attacked_st (make_move_unchecked st (position, m)).2
          st.current_player).1), st)

/-- The list returned by `MiniChess.get_valid_moves`. -/
def get_valid_moves (st : MiniChess) (position : Int × Int) : List (Int × Int) :=
  (get_valid_moves_st st position).1

/-- `MiniChess.make_move`: guard chain (coordinates in range, occupied
origin, origin piece of the current player, and — when `check_validity` —
destination among `get_valid_moves`), then the mutation; returns the
source's boolean together with the resulting state. -/
def make_move (st : MiniChess) (move : (Int × Int) × (Int × Int))
    (check_validity : Bool) : Bool × MiniChess :=
  if ¬(is_valid_position move.1.1 move.1.2 = true ∧
       is_valid_position move.2.1 move.2.2 = true) then (false, st)
  else if st.board move.1.1 move.1.2 = '.' then (false, st)
  else if ¬(get_piece_color (st.board move.1.1 move.1.2) = some st.current_player)
    then (false, st)
  else if check_validity = true ∧ ¬(move.2 ∈ get_valid_moves st move.1)
    then (false, st)
  else (true, exec_move st move.1.1 move.1.2 move.2.1 move.2.2)

/-- `MiniChess.is_checkmate`: current player in check and no piece of the
current player has any entry in `get_valid_moves`. -/
def is_checkmate (st : MiniChess) : Bool :=
  if is_check st st.current_player = true then
    !(allPositions.any (fun rc =>
      decide (st.board rc.1 rc.2 ≠ '.' ∧
              get_piece_color (st.board rc.1 rc.2) = some st.current_player ∧
              get_valid_moves st rc ≠ [])))
  else false

/-- `MiniChess.is_king_captured` of `src/minichess_ia`: scans the board for
each king character and returns the color of the side whose king is absent
(`'w'` first), or `none`. -/
def is_king_captured (st : MiniChess) : Option Char :=
  if (allPositions.any (fun rc => decide (st.board rc.1 rc.2 = 'K'))) = false then some 'w'
  else if (allPositions.any (fun rc => decide (st.board rc.1 rc.2 = 'k'))) = false
    then some 'b'
  else none

/-- `MiniChess.is_king_captured` of `src/minichess_cam-ia`: same scan of
`self.board`, but it returns `'b'` when the white king is absent and `'w'`
when the black king is absent (the winner's color). -/
def camia_is_king_captured (board : Board) : Option Char :=
  if (allPositions.any (fun rc => decide (board rc.1 rc.2 = 'K'))) = false then some 'b'
  else if (allPositions.any (fun rc => decide (board rc.1 rc.2 = 'k'))) = false
    then some 'w'
  else none

/-- Game states reachable from `initial ig` through accepted
(`check_validity=True`) `make_move` calls. -/
inductive Reachable (ig : Bool) : MiniChess → Prop
  | init : Reachable ig (initial ig)
  | step (st : MiniChess) (mv : (Int × Int) × (Int × Int))
      (h : Reachable ig st) (hok : (make_move st mv true).1 = true) :
      Reachable ig ((make_move st mv true).2)

/-- The characters that can appear in a board cell of this game. -/
def pieceChars : List Char := ['.','p','r','q','k','P','R','Q','K']

/-- The king character of a color. -/
def kingChar (c : Char) : Char := if c = 'w' then 'K' else 'k'

/-- All in-range cells hold game characters. -/
def BoardChars (st : MiniChess) : Prop :=
  ∀ r c : Int, is_valid_position r c = true → st.board r c ∈ pieceChars

/-- The king-consistency invariant of the claim: every in-range cell that
holds a color's king character is the square recorded for that color in
`king_positions`. -/
def KingConsistent (st : MiniChess) : Prop :=
  ∀ col : Char, (col = 'w' ∨ col = 'b') →
    ∀ r c : Int, is_valid_position r c = true →
      st.board r c = kingChar col → st.king_positions col = (r, c)

/-- Concrete state for the C8 witness: the black king is absent and its
recorded square (0,2) is occupied by a white pawn. -/
def c8w_state : MiniChess :=
  { board := fromRows [['.','.','P','.']]
  , current_player := 'w'
  , move_history := []
  , king_positions := fun c => if c = 'w' then (3, 3) else (0, 2)
  , ignore_check_rule := false }

/-- First state of the C8 counterexample game (ignore-check mode, so black
may ignore check and its king can actually be captured). -/
def c8cex_s1 : MiniChess := (make_move (initial true) ((2, 2), (1, 3)) true).2

/-- Second state of the C8 counterexample game. -/
def c8cex_s2 : MiniChess := (make_move c8cex_s1 ((1, 2), (2, 2)) true).2

/-- Third state of the C8 counterexample game: the white pawn has just
captured the black king on (0,2). -/
def c8cex_s3 : MiniChess := (make_move c8cex_s2 ((1, 3), (0, 2)) true).2

/-- Fourth state: the black rook recaptures the pawn on the stale recorded
king square. -/
def c8cex_s4 : MiniChess := (make_move c8cex_s3 ((0, 3), (0, 2)) true).2

/-- Fifth state: a white pawn advances to (1,3), from where it attacks the
stale recorded king square (0,2). -/
def c8cex_s5 : MiniChess := (make_move c8cex_s4 ((2, 3), (1, 3)) true).2

/-- Concrete state for the C1 counterexample: ignore-check mode with black
to move; the black rook on (0,1) shields the black king from the white rook
on (0,3). -/
def c1cex_state : MiniChess :=
  { board := fromRows [['k','r','.','R']]
  , current_player := 'b'
  , move_history := []
  , king_positions := fun c => if c = 'w' then (3, 3) else (0, 0)
  , ignore_check_rule := true }

lemma mem_allPositions {p : Int × Int} :
    p ∈ allPositions ↔ is_valid_position p.1 p.2 = true := by
  obtain ⟨a, b⟩ := p
  simp only [is_valid_position, decide_eq_true_eq]
  constructor
  · intro h
    fin_cases h <;> norm_num
  · rintro ⟨h1, h2, h3, h4⟩
    interval_cases a <;> interval_cases b <;> simp [allPositions]

lemma iskaLoop_spec (opp : Char) (k : Int × Int) (l : List (Int × Int)) :
    ∀ st : MiniChess,
      iskaLoop opp k st l =
        (l.any (fun rc => decide (st.board rc.1 rc.2 ≠ '.' ∧
            get_piece_color (st.board rc.1 rc.2) = some opp ∧
            k ∈ get_basic_moves { st with current_player := opp } rc)), st) := by
  induction l with
  | nil => intro st; rfl
  | cons rc rest ih =>
    intro st
    rw [iskaLoop]
    by_cases h : st.board rc.1 rc.2 ≠ '.' ∧ get_piece_color (st.board rc.1 rc.2) = some opp
    · rw [if_pos h]
      by_cases hk : k ∈ get_basic_moves { st with current_player := opp } rc
      · simp [hk, h]
      · rw [if_neg hk]
        rw [ih st]
        simp [hk, h]
    · rw [if_neg h]
      rw [ih st]
      have hfalse : ¬(st.board rc.1 rc.2 ≠ '.' ∧
          get_piece_color (st.board rc.1 rc.2) = some opp ∧
          k ∈ get_basic_moves { st with current_player := opp } rc) :=
        fun hx => h ⟨hx.1, hx.2.1⟩
      simp [List.any_cons, hfalse]

lemma mem_slideAux {b : Board} {p : Char} {dr dc : Int} :
    ∀ {n : Nat} {r c : Int} {m : Int × Int}, m ∈ slideAux b p dr dc n r c →
      is_valid_position m.1 m.2 = true ∧
      (b m.1 m.2 = '.' ∨ get_piece_color (b m.1 m.2) ≠ some p) ∧
      ∃ k : Int, 1 ≤ k ∧ m.1 = r + k * dr ∧ m.2 = c + k * dc := by
  intro n
  induction n with
  | zero =>
    intro r c m h
    simp [slideAux] at h
  | succ n ih =>
    intro r c m h
    rw [slideAux] at h
    split_ifs at h with h1 h2 h3
    · rcases List.mem_cons.mp h with rfl | h'
      · exact ⟨h1, Or.inl h2, 1, le_refl 1, by ring, by ring⟩
      · obtain ⟨hv, hocc, k, hk, e1, e2⟩ := ih h'
        exact ⟨hv, hocc, k + 1, by omega, by rw [e1]; ring, by rw [e2]; ring⟩
    · simp only [List.mem_singleton] at h
      subst h
      exact ⟨h1, Or.inr h3, 1, le_refl 1, by ring, by ring⟩
    · simp at h
    · simp at h

lemma pawn_direction_ne_zero (player : Char) : pawn_direction player ≠ 0 := by
  unfold pawn_direction
  split_ifs <;> omega

lemma mem_pawn_moves {st : MiniChess} {r c : Int} {m : Int × Int}
    (h : m ∈ pawn_moves st r c) :
    is_valid_position m.1 m.2 = true ∧
    (st.board m.1 m.2 = '.' ∨
      get_piece_color (st.board m.1 m.2) ≠ some st.current_player) ∧
    m ≠ (r, c) := by
  have hdir := pawn_direction_ne_zero st.current_player
  unfold pawn_moves at h
  rcases List.mem_append.mp h with h | h
  · split_ifs at h with hcond
    · simp only [List.mem_singleton] at h
      subst h
      refine ⟨hcond.1, Or.inl hcond.2, ?_⟩
      intro hEq
      rw [Prod.mk.injEq] at hEq
      omega
    · simp at h
  · simp only [List.mem_map, List.mem_filter] at h
    obtain ⟨nc, ⟨hmem, hcond⟩, rfl⟩ := h
    rw [decide_eq_true_eq] at hcond
    refine ⟨hcond.1, Or.inr hcond.2.2, ?_⟩
    intro hEq
    rw [Prod.mk.injEq] at hEq
    omega

lemma rook_directions_ne : ∀ d ∈ rook_directions, d.1 ≠ 0 ∨ d.2 ≠ 0 := by decide

lemma all_directions_ne : ∀ d ∈ all_directions, d.1 ≠ 0 ∨ d.2 ≠ 0 := by decide

lemma mem_king_moves {st : MiniChess} {r c : Int} {m : Int × Int}
    (h : m ∈ king_moves st r c) :
    is_valid_position m.1 m.2 = true ∧
    (st.board m.1 m.2 = '.' ∨
      get_piece_color (st.board m.1 m.2) ≠ some st.current_player) ∧
    m ≠ (r, c) := by
  unfold king_moves at h
  simp only [List.mem_filterMap] at h
  obtain ⟨d, hd, hm⟩ := h
  split_ifs at hm with hcond
  · simp only [Option.some_inj] at hm
    subst hm
    refine ⟨hcond.1, hcond.2, ?_⟩
    have hdne := all_directions_ne d hd
    intro hEq
    rw [Prod.mk.injEq] at hEq
    rcases hdne with h1 | h1 <;> omega

lemma mem_get_basic_moves {st : MiniChess} {pos m : Int × Int}
    (h : m ∈ get_basic_moves st pos) :
    is_valid_position m.1 m.2 = true ∧
    (st.board m.1 m.2 = '.' ∨
      get_piece_color (st.board m.1 m.2) ≠ some st.current_player) ∧
    m ≠ pos ∧
    st.board pos.1 pos.2 ≠ '.' ∧
    get_piece_color (st.board pos.1 pos.2) = some st.current_player := by
  unfold get_basic_moves at h
  split_ifs at h with h1 h2 h3 h4 h5 h6
  · simp at h
  · obtain ⟨hv, hocc, hne⟩ := mem_pawn_moves h
    exact ⟨hv, hocc, by simpa using hne, h1, h2⟩
  · simp only [List.mem_flatten, List.mem_map] at h
    obtain ⟨l, ⟨d, hd, rfl⟩, hm⟩ := h
    obtain ⟨hv, hocc, k, hk, e1, e2⟩ := mem_slideAux hm
    refine ⟨hv, hocc, ?_, h1, h2⟩
    have hdne := rook_directions_ne d hd
    intro hEq
    subst hEq
    rcases hdne with hd1 | hd1
    · have hz : k * d.1 ≠ 0 := mul_ne_zero (by omega) hd1
      omega
    · have hz : k * d.2 ≠ 0 := mul_ne_zero (by omega) hd1
      omega
  · simp only [List.mem_flatten, List.mem_map] at h
    obtain ⟨l, ⟨d, hd, rfl⟩, hm⟩ := h
    obtain ⟨hv, hocc, k, hk, e1, e2⟩ := mem_slideAux hm
    refine ⟨hv, hocc, ?_, h1, h2⟩
    have hdne := all_directions_ne d hd
    intro hEq
    subst hEq
    rcases hdne with hd1 | hd1
    · have hz : k * d.1 ≠ 0 := mul_ne_zero (by omega) hd1
      omega
    · have hz : k * d.2 ≠ 0 := mul_ne_zero (by omega) hd1
      omega
  · obtain ⟨hv, hocc, hne⟩ := mem_king_moves h
    exact ⟨hv, hocc, by simpa using hne, h1, h2⟩
  · simp at h
  · simp at h

lemma gvm_subset {st : MiniChess} {pos m : Int × Int}
    (h : m ∈ get_valid_moves st pos) : m ∈ get_basic_moves st pos := by
  simp only [get_valid_moves, get_valid_moves_st] at h
  split_ifs at h
  · exact h
  · exact (List.mem_filter.mp h).1

lemma make_move_false_eq (st : MiniChess) (mv : (Int × Int) × (Int × Int)) :
    make_move st mv false = make_move_unchecked st mv := by
  unfold make_move make_move_unchecked
  split_ifs <;> simp_all

lemma make_move_eq_exec {st : MiniChess} {mv : (Int × Int) × (Int × Int)} (cv : Bool)
    (h1 : is_valid_position mv.1.1 mv.1.2 = true)
    (h2 : is_valid_position mv.2.1 mv.2.2 = true)
    (h3 : st.board mv.1.1 mv.1.2 ≠ '.')
    (h4 : get_piece_color (st.board mv.1.1 mv.1.2) = some st.current_player)
    (h5 : mv.2 ∈ get_valid_moves st mv.1) :
    make_move st mv cv = (true, exec_move st mv.1.1 mv.1.2 mv.2.1 mv.2.2) := by
  unfold make_move
  split_ifs <;> simp_all

lemma make_move_unchecked_eq_exec {st : MiniChess} {mv : (Int × Int) × (Int × Int)}
    (h1 : is_valid_position mv.1.1 mv.1.2 = true)
    (h2 : is_valid_position mv.2.1 mv.2.2 = true)
    (h3 : st.board mv.1.1 mv.1.2 ≠ '.')
    (h4 : get_piece_color (st.board mv.1.1 mv.1.2) = some st.current_player) :
    make_move_unchecked st mv = (true, exec_move st mv.1.1 mv.1.2 mv.2.1 mv.2.2) := by
  unfold make_move_unchecked
  split_ifs <;> simp_all

lemma make_move_true_inv {st : MiniChess} {mv : (Int × Int) × (Int × Int)}
    (h : (make_move st mv true).1 = true) :
    is_valid_position mv.1.1 mv.1.2 = true ∧
    is_valid_position mv.2.1 mv.2.2 = true ∧
    st.board mv.1.1 mv.1.2 ≠ '.' ∧
    get_piece_color (st.board mv.1.1 mv.1.2) = some st.current_player ∧
    mv.2 ∈ get_valid_moves st mv.1 ∧
    (make_move st mv true).2 = exec_move st mv.1.1 mv.1.2 mv.2.1 mv.2.2 := by
  unfold make_move at h ⊢
  split_ifs at h ⊢ with g1 g2 g3 g4
  simp_all

/-- C2: `is_check(c)` (via `is_king_attacked`) returns true iff some piece
of the opposite color, evaluated with the opposite color as the moving side,
has a geometric pseudo-legal move (per `get_basic_moves`, with no legality
filtering) landing exactly on the recorded king square of `c`. -/
theorem is_check_iff_geometric_attack (st : MiniChess) (p : Char) :
    is_check st p = true ↔
      ∃ rc : Int × Int, is_valid_position rc.1 rc.2 = true ∧
        st.board rc.1 rc.2 ≠ '.' ∧
        get_piece_color (st.board rc.1 rc.2) = some (opponent_of p) ∧
        st.king_positions p ∈
          get_basic_moves { st with current_player := opponent_of p } rc := by
  unfold is_check is_check_st is_king_attacked_st
  rw [iskaLoop_spec]
  simp only [List.any_eq_true, decide_eq_true_eq]
  constructor
  · rintro ⟨rc, hrc, hp⟩
    exact ⟨rc, mem_allPositions.mp hrc, hp.1, hp.2.1, hp.2.2⟩
  · rintro ⟨rc, hv, hne, hc, hk⟩
    exact ⟨rc, mem_allPositions.mpr hv, hne, hc, hk⟩

/-- C9: the query operations leave the live game state unchanged: the
`current_player` save/restore inside `is_king_attacked` nets out to the
identity, and `get_valid_moves` simulates only on a copy. -/
theorem queries_preserve_live_state (st : MiniChess) (p : Char) (pos : Int × Int) :
    (is_king_attacked_st st p).2 = st ∧ (is_check_st st p).2 = st ∧
    (get_valid_moves_st st pos).2 = st := by
  refine ⟨?_, ?_, ?_⟩
  · unfold is_king_attacked_st
    rw [iskaLoop_spec]
  · unfold is_check_st is_king_attacked_st
    rw [iskaLoop_spec]
  · unfold get_valid_moves_st
    split_ifs <;> rfl

/-- C3: whenever validated `make_move` returns false, the whole state
(board, king positions, current player, move history) is unchanged. -/
theorem rejected_move_state_unchanged (st : MiniChess)
    (mv : (Int × Int) × (Int × Int)) (h : (make_move st mv true).1 = false) :
    (make_move st mv true).2 = st := by
  unfold make_move at h ⊢
  split_ifs at h ⊢ <;> simp_all

/-- Witness for C3 at a concrete rejected move (origin holds a black rook
while white is to move). -/
theorem rejected_move_state_unchanged_witness :
    (make_move (initial false) ((0, 0), (1, 0)) true).1 = false ∧
    (make_move (initial false) ((0, 0), (1, 0)) true).2 = initial false :=
  ⟨by decide, rejected_move_state_unchanged (initial false) ((0, 0), (1, 0)) (by decide)⟩

/-- C4: validated `make_move` returns a boolean, false exactly when a
coordinate is out of range, the origin is empty, the origin piece is not the
current player's, or the destination is not in `get_valid_moves`. -/
theorem make_move_validated_false_iff (st : MiniChess)
    (mv : (Int × Int) × (Int × Int)) :
    (make_move st mv true).1 = false ↔
      (¬(is_valid_position mv.1.1 mv.1.2 = true ∧
         is_valid_position mv.2.1 mv.2.2 = true) ∨
       st.board mv.1.1 mv.1.2 = '.' ∨
       get_piece_color (st.board mv.1.1 mv.1.2) ≠ some st.current_player ∨
       mv.2 ∉ get_valid_moves st mv.1) := by
  unfold make_move
  split_ifs <;> simp_all

/-- C10: `make_move` with `check_validity=False` still returns false (with
the state unchanged) exactly on out-of-range coordinates, an empty origin,
or a wrong-color origin piece; only the destination-legality test is
skipped. -/
theorem make_move_unvalidated_guards (st : MiniChess)
    (mv : (Int × Int) × (Int × Int)) :
    ((make_move st mv false).1 = false ↔
      (¬(is_valid_position mv.1.1 mv.1.2 = true ∧
         is_valid_position mv.2.1 mv.2.2 = true) ∨
       st.board mv.1.1 mv.1.2 = '.' ∨
       get_piece_color (st.board mv.1.1 mv.1.2) ≠ some st.current_player)) ∧
    ((make_move st mv false).1 = false → (make_move st mv false).2 = st) := by
  unfold make_move
  split_ifs <;> simp_all

/-- Witness for C10 at a concrete input (origin (0,1) holds a black queen
while white is to move; the unvalidated call still rejects it). -/
theorem make_move_unvalidated_guards_witness :
    ((make_move (initial false) ((0, 1), (1, 1)) false).1 = false ↔
      (¬(is_valid_position 0 1 = true ∧ is_valid_position 1 1 = true) ∨
       (initial false).board 0 1 = '.' ∨
       get_piece_color ((initial false).board 0 1)
         ≠ some (initial false).current_player)) ∧
    ((make_move (initial false) ((0, 1), (1, 1)) false).1 = false →
      (make_move (initial false) ((0, 1), (1, 1)) false).2 = initial false) :=
  make_move_unvalidated_guards (initial false) ((0, 1), (1, 1))

lemma update_player_board (st : MiniChess) (c : Char) :
    ({ st with current_player := c } : MiniChess).board = st.board := rfl

lemma update_player_player (st : MiniChess) (c : Char) :
    ({ st with current_player := c } : MiniChess).current_player = c := rfl

/-- C8 (amended): the check query never raises (both colors always have a
recorded square) and evaluates the attack at the recorded king square; it
returns false whenever that square is occupied by a piece of the attacking
side — in particular immediately after the move that captured the king. -/
theorem check_false_when_square_held_by_attacker (st : MiniChess) (p : Char)
    (h : get_piece_color (st.board (st.king_positions p).1 (st.king_positions p).2)
          = some (opponent_of p)) :
    is_check st p = false := by
  unfold is_check is_check_st is_king_attacked_st
  rw [iskaLoop_spec]
  simp only [List.any_eq_false, decide_eq_true_eq]
  intro rc hrc
  rintro ⟨hne, hcol, hmem⟩
  obtain ⟨_, hocc, _, _, _⟩ := mem_get_basic_moves hmem
  rw [update_player_board, update_player_player] at hocc
  rcases hocc with h1 | h2
  · rw [h1] at h
    simp [get_piece_color] at h
  · exact h2 h

/-- Witness for C8's amended theorem at a concrete state. -/
theorem check_false_when_square_held_by_attacker_witness :
    get_piece_color (c8w_state.board (c8w_state.king_positions 'b').1
        (c8w_state.king_positions 'b').2) = some (opponent_of 'b') ∧
    is_check c8w_state 'b' = false :=
  ⟨by decide, check_false_when_square_held_by_attacker c8w_state 'b' (by decide)⟩

/-- Counterexample for C8: after five accepted moves from the initial state
the black king is absent from the board, yet `is_check('b')` returns true
(the stale recorded square is attacked), not false as the claim states. -/
theorem check_query_after_king_capture_cex :
    (make_move (initial true) ((2, 2), (1, 3)) true).1 = true ∧
    (make_move c8cex_s1 ((1, 2), (2, 2)) true).1 = true ∧
    (make_move c8cex_s2 ((1, 3), (0, 2)) true).1 = true ∧
    (make_move c8cex_s3 ((0, 3), (0, 2)) true).1 = true ∧
    (make_move c8cex_s4 ((2, 3), (1, 3)) true).1 = true ∧
    (allPositions.all (fun rc => decide (c8cex_s5.board rc.1 rc.2 ≠ 'k'))) = true ∧
    is_check c8cex_s5 'b' = true := by decide

/-- Counterexample for C1: with the ignore-check bypass active for black,
`get_valid_moves` returns the shield-dropping rook move (0,1)->(1,1);
applying it through validated `make_move` leaves the moving side (black) in
check. -/
theorem bypassed_valid_move_leaves_check_cex :
    is_valid_position 0 1 = true ∧
    (1, 1) ∈ get_valid_moves c1cex_state (0, 1) ∧
    (make_move c1cex_state ((0, 1), (1, 1)) true).1 = true ∧
    is_check (make_move c1cex_state ((0, 1), (1, 1)) true).2
      c1cex_state.current_player = true := by decide

/-- C1 (amended): applying any move returned by `get_valid_moves` for an
in-range position never leaves the moving side in check, provided the
legality filter is not bypassed for that piece (i.e. unless
`ignore_check_rule` is set and the piece at `pos` is black). -/
theorem filtered_valid_move_leaves_no_check (st : MiniChess) (pos m : Int × Int)
    (hpos : is_valid_position pos.1 pos.2 = true)
    (hnb : ¬(st.ignore_check_rule = true ∧
             get_piece_color (st.board pos.1 pos.2) = some 'b'))
    (hm : m ∈ get_valid_moves st pos) :
    is_check (make_move st (pos, m) true).2 st.current_player = false := by
  have hb := gvm_subset hm
  obtain ⟨hv, hocc, hne, hp, hc⟩ := mem_get_basic_moves hb
  have hmm := @make_move_eq_exec st (pos, m) true hpos hv hp hc hm
  rw [hmm]
  have hfil : m ∈ (get_basic_moves st pos).filter (fun m =>
      !(is_king_attacked_st (make_move_unchecked st (pos, m)).2
          st.current_player).1) := by
    unfold get_valid_moves get_valid_moves_st at hm
    rw [if_neg hnb] at hm
    exact hm
  have hpred := (List.mem_filter.mp hfil).2
  have hun := @make_move_unchecked_eq_exec st (pos, m) hpos hv hp hc
  rw [hun] at hpred
  simp only [Bool.not_eq_true'] at hpred
  show is_check (exec_move st pos.1 pos.2 m.1 m.2) st.current_player = false
  unfold is_check is_check_st
  exact hpred

/-- Witness for C1's amended theorem: the white pawn capture (2,0)->(1,1)
from the initial state is filtered legal, and applying it leaves white not
in check. -/
theorem filtered_valid_move_leaves_no_check_witness :
    is_valid_position 2 0 = true ∧
    ¬((initial false).ignore_check_rule = true ∧
      get_piece_color ((initial false).board 2 0) = some 'b') ∧
    (1, 1) ∈ get_valid_moves (initial false) (2, 0) ∧
    is_check (make_move (initial false) ((2, 0), (1, 1)) true).2
      (initial false).current_player = false :=
  ⟨by decide, by decide, by decide,
   filtered_valid_move_leaves_no_check (initial false) (2, 0) (1, 1)
     (by decide) (by decide) (by decide)⟩

/-- C5: `is_checkmate` is true iff the current player is in check and no
piece of the current player has any entry in `get_valid_moves`. -/
theorem is_checkmate_iff (st : MiniChess) :
    is_checkmate st = true ↔
      (is_check st st.current_player = true ∧
       ∀ rc : Int × Int, is_valid_position rc.1 rc.2 = true →
         st.board rc.1 rc.2 ≠ '.' →
         get_piece_color (st.board rc.1 rc.2) = some st.current_player →
         get_valid_moves st rc = []) := by
  unfold is_checkmate
  split_ifs with hck
  · simp only [Bool.not_eq_true', List.any_eq_false, decide_eq_true_eq]
    constructor
    · intro hall
      refine ⟨hck, ?_⟩
      intro rc hv hne hcol
      have hthis := hall rc (mem_allPositions.mpr hv)
      by_contra hne2
      exact hthis ⟨hne, hcol, hne2⟩
    · rintro ⟨-, hall⟩ rc hrc
      rintro ⟨hne, hcol, hgvm⟩
      exact hgvm (hall rc (mem_allPositions.mp hrc) hne hcol)
  · simp [hck]

lemma any_eq_true_iff_exists (f : Board) (ch : Char) :
    (allPositions.any (fun rc => decide (f rc.1 rc.2 = ch))) = true ↔
      ∃ r c : Int, is_valid_position r c = true ∧ f r c = ch := by
  simp only [List.any_eq_true, decide_eq_true_eq]
  constructor
  · rintro ⟨rc, hrc, hch⟩
    exact ⟨rc.1, rc.2, mem_allPositions.mp hrc, hch⟩
  · rintro ⟨r, c, hv, hch⟩
    exact ⟨(r, c), mem_allPositions.mpr hv, hch⟩

lemma any_eq_false_iff_forall (f : Board) (ch : Char) :
    (allPositions.any (fun rc => decide (f rc.1 rc.2 = ch))) = false ↔
      ∀ r c : Int, is_valid_position r c = true → f r c ≠ ch := by
  rw [← Bool.not_eq_true, any_eq_true_iff_exists]
  push_neg
  constructor
  · intro h r c hv
    exact h r c hv
  · intro h r c hv
    exact h r c hv

/-- Counterexample for C6: a board whose white King is absent (only a black
king on (0,0)); the cam-ia variant's `is_king_captured` returns `'b'`, the
winner's color, not `'w'`, the color of the side whose King is absent. -/
theorem camia_king_captured_winner_cex :
    (allPositions.all (fun rc => decide ((fromRows [['k']]) rc.1 rc.2 ≠ 'K'))) = true ∧
    (fromRows [['k']]) 0 0 = 'k' ∧
    camia_is_king_captured (fromRows [['k']]) = some 'b' := by decide

lemma ia_king_captured_char (st : MiniChess) :
    (is_king_captured st = some 'w' ↔
      ∀ r c : Int, is_valid_position r c = true → st.board r c ≠ 'K') ∧
    (is_king_captured st = some 'b' ↔
      ((∃ r c : Int, is_valid_position r c = true ∧ st.board r c = 'K') ∧
       ∀ r c : Int, is_valid_position r c = true → st.board r c ≠ 'k')) ∧
    (is_king_captured st = none ↔
      ((∃ r c : Int, is_valid_position r c = true ∧ st.board r c = 'K') ∧
       (∃ r c : Int, is_valid_position r c = true ∧ st.board r c = 'k'))) := by
  unfold is_king_captured
  rcases hK : (allPositions.any (fun rc => decide (st.board rc.1 rc.2 = 'K'))) with _ | _
  · rw [any_eq_false_iff_forall] at hK
    rcases hk : (allPositions.any (fun rc => decide (st.board rc.1 rc.2 = 'k'))) with _ | _
    · rw [any_eq_false_iff_forall] at hk
      exact ⟨iff_of_true rfl hK,
             iff_of_false (by simp) (fun hx => match hx.1 with
               | ⟨r, c, hv, hch⟩ => hK r c hv hch),
             iff_of_false (by simp) (fun hx => match hx.1 with
               | ⟨r, c, hv, hch⟩ => hK r c hv hch)⟩
    · rw [any_eq_true_iff_exists] at hk
      exact ⟨iff_of_true rfl hK,
             iff_of_false (by simp) (fun hx => match hx.1 with
               | ⟨r, c, hv, hch⟩ => hK r c hv hch),
             iff_of_false (by simp) (fun hx => match hx.1 with
               | ⟨r, c, hv, hch⟩ => hK r c hv hch)⟩
  · rw [any_eq_true_iff_exists] at hK
    rcases hk : (allPositions.any (fun rc => decide (st.board rc.1 rc.2 = 'k'))) with _ | _
    · rw [any_eq_false_iff_forall] at hk
      exact ⟨iff_of_false (by simp) (fun hall => match hK with
               | ⟨r, c, hv, hch⟩ => hall r c hv hch),
             iff_of_true rfl ⟨hK, hk⟩,
             iff_of_false (by simp) (fun hx => match hx.2 with
               | ⟨r, c, hv, hch⟩ => hk r c hv hch)⟩
    · rw [any_eq_true_iff_exists] at hk
      exact ⟨iff_of_false (by simp) (fun hall => match hK with
               | ⟨r, c, hv, hch⟩ => hall r c hv hch),
             iff_of_false (by simp) (fun hx => match hk with
               | ⟨r, c, hv, hch⟩ => hx.2 r c hv hch),
             iff_of_true rfl ⟨hK, hk⟩⟩

lemma camia_king_captured_char (b : Board) :
    (camia_is_king_captured b = some 'b' ↔
      ∀ r c : Int, is_valid_position r c = true → b r c ≠ 'K') ∧
    (camia_is_king_captured b = some 'w' ↔
      ((∃ r c : Int, is_valid_position r c = true ∧ b r c = 'K') ∧
       ∀ r c : Int, is_valid_position r c = true → b r c ≠ 'k')) ∧
    (camia_is_king_captured b = none ↔
      ((∃ r c : Int, is_valid_position r c = true ∧ b r c = 'K') ∧
       (∃ r c : Int, is_valid_position r c = true ∧ b r c = 'k'))) := by
  unfold camia_is_king_captured
  rcases hK : (allPositions.any (fun rc => decide (b rc.1 rc.2 = 'K'))) with _ | _
  · rw [any_eq_false_iff_forall] at hK
    rcases hk : (allPositions.any (fun rc => decide (b rc.1 rc.2 = 'k'))) with _ | _
    · rw [any_eq_false_iff_forall] at hk
      exact ⟨iff_of_true rfl hK,
             iff_of_false (by simp) (fun hx => match hx.1 with
               | ⟨r, c, hv, hch⟩ => hK r c hv hch),
             iff_of_false (by simp) (fun hx => match hx.1 with
               | ⟨r, c, hv, hch⟩ => hK r c hv hch)⟩
    · rw [any_eq_true_iff_exists] at hk
      exact ⟨iff_of_true rfl hK,
             iff_of_false (by simp) (fun hx => match hx.1 with
               | ⟨r, c, hv, hch⟩ => hK r c hv hch),
             iff_of_false (by simp) (fun hx => match hx.1 with
               | ⟨r, c, hv, hch⟩ => hK r c hv hch)⟩
  · rw [any_eq_true_iff_exists] at hK
    rcases hk : (allPositions.any (fun rc => decide (b rc.1 rc.2 = 'k'))) with _ | _
    · rw [any_eq_false_iff_forall] at hk
      exact ⟨iff_of_false (by simp) (fun hall => match hK with
               | ⟨r, c, hv, hch⟩ => hall r c hv hch),
             iff_of_true rfl ⟨hK, hk⟩,
             iff_of_false (by simp) (fun hx => match hx.2 with
               | ⟨r, c, hv, hch⟩ => hk r c hv hch)⟩
    · rw [any_eq_true_iff_exists] at hk
      exact ⟨iff_of_false (by simp) (fun hall => match hK with
               | ⟨r, c, hv, hch⟩ => hall r c hv hch),
             iff_of_false (by simp) (fun hx => match hk with
               | ⟨r, c, hv, hch⟩ => hx.2 r c hv hch),
             iff_of_true rfl ⟨hK, hk⟩⟩

/-- C6 (amended): `minichess_ia`'s `is_king_captured` returns the color of
the side whose King is absent (checking white first) and `none` when both
are present, while `minichess_cam-ia`'s returns the opposite (winning)
color in the same situations. -/
theorem king_captured_characterization (st : MiniChess) (b : Board) :
    (is_king_captured st = some 'w' ↔
      ∀ r c : Int, is_valid_position r c = true → st.board r c ≠ 'K') ∧
    (is_king_captured st = some 'b' ↔
      ((∃ r c : Int, is_valid_position r c = true ∧ st.board r c = 'K') ∧
       ∀ r c : Int, is_valid_position r c = true → st.board r c ≠ 'k')) ∧
    (is_king_captured st = none ↔
      ((∃ r c : Int, is_valid_position r c = true ∧ st.board r c = 'K') ∧
       (∃ r c : Int, is_valid_position r c = true ∧ st.board r c = 'k'))) ∧
    (camia_is_king_captured b = some 'b' ↔
      ∀ r c : Int, is_valid_position r c = true → b r c ≠ 'K') ∧
    (camia_is_king_captured b = some 'w' ↔
      ((∃ r c : Int, is_valid_position r c = true ∧ b r c = 'K') ∧
       ∀ r c : Int, is_valid_position r c = true → b r c ≠ 'k')) ∧
    (camia_is_king_captured b = none ↔
      ((∃ r c : Int, is_valid_position r c = true ∧ b r c = 'K') ∧
       (∃ r c : Int, is_valid_position r c = true ∧ b r c = 'k'))) :=
  ⟨(ia_king_captured_char st).1, (ia_king_captured_char st).2.1,
   (ia_king_captured_char st).2.2, (camia_king_captured_char b).1,
   (camia_king_captured_char b).2.1, (camia_king_captured_char b).2.2⟩

lemma boardSet_apply (b : Board) (r c : Int) (p : Char) (r' c' : Int) :
    boardSet b r c p r' c' = if r' = r ∧ c' = c then p else b r' c' := rfl

lemma initial_board_eq (ig : Bool) :
    (initial ig).board = fromRows [['r','q','k','r'],
                                   ['p','p','p','p'],
                                   ['P','P','P','P'],
                                   ['R','Q','K','R']] := rfl

lemma initial_kp_eq (ig : Bool) :
    (initial ig).king_positions = fun c => if c = 'w' then (3, 2) else (0, 2) := rfl

lemma initial_BC (ig : Bool) : BoardChars (initial ig) := by
  intro r c hv
  simp only [is_valid_position, decide_eq_true_eq] at hv
  obtain ⟨h1, h2, h3, h4⟩ := hv
  rw [initial_board_eq]
  interval_cases r <;> interval_cases c <;> decide

lemma initial_KC (ig : Bool) : KingConsistent (initial ig) := by
  intro col hcol r c hv hk
  simp only [is_valid_position, decide_eq_true_eq] at hv
  obtain ⟨h1, h2, h3, h4⟩ := hv
  rw [initial_board_eq] at hk
  rw [initial_kp_eq]
  revert hk
  rcases hcol with rfl | rfl <;> interval_cases r <;> interval_cases c <;> decide

lemma toLower_k_cases {ch : Char} (hch : ch ∈ pieceChars) (hl : ch.toLower = 'k') :
    ch = 'k' ∨ ch = 'K' := by
  fin_cases hch <;> revert hl <;> decide

lemma exec_preserves_BC {st : MiniChess} {r1 c1 r2 c2 : Int}
    (hbc : BoardChars st) (hor : is_valid_position r1 c1 = true) :
    BoardChars (exec_move st r1 c1 r2 c2) := by
  intro r c hv
  show boardSet (boardSet st.board r2 c2 (st.board r1 c1)) r1 c1 '.' r c ∈ pieceChars
  rw [boardSet_apply, boardSet_apply]
  split_ifs
  · decide
  · exact hbc r1 c1 hor
  · exact hbc r c hv

lemma exec_preserves_KC {st : MiniChess} {r1 c1 r2 c2 : Int}
    (hbc : BoardChars st) (hkc : KingConsistent st)
    (hor : is_valid_position r1 c1 = true)
    (hcol : get_piece_color (st.board r1 c1) = some st.current_player) :
    KingConsistent (exec_move st r1 c1 r2 c2) := by
  intro col hc r c hv hk
  have hb : (exec_move st r1 c1 r2 c2).board r c =
      (if r = r1 ∧ c = c1 then '.'
       else if r = r2 ∧ c = c2 then st.board r1 c1 else st.board r c) := rfl
  have hkp : (exec_move st r1 c1 r2 c2).king_positions =
      (if (st.board r1 c1).toLower = 'k' then
        (fun x => if x = st.current_player then (r2, c2) else st.king_positions x)
       else st.king_positions) := rfl
  rw [hb] at hk
  by_cases e1 : r = r1 ∧ c = c1
  · rw [if_pos e1] at hk
    exfalso
    rcases hc with rfl | rfl <;> revert hk <;> decide
  · rw [if_neg e1] at hk
    by_cases e2 : r = r2 ∧ c = c2
    · rw [if_pos e2] at hk
      have hcur : st.current_player = col := by
        rw [hk] at hcol
        rcases hc with rfl | rfl
        · have hgc : get_piece_color (kingChar 'w') = some 'w' := by decide
          rw [hgc] at hcol
          exact (Option.some_inj.mp hcol).symm
        · have hgc : get_piece_color (kingChar 'b') = some 'b' := by decide
          rw [hgc] at hcol
          exact (Option.some_inj.mp hcol).symm
      have hlow : (st.board r1 c1).toLower = 'k' := by
        rw [hk]
        rcases hc with rfl | rfl <;> decide
      rw [hkp, if_pos hlow]
      show (if col = st.current_player then (r2, c2) else st.king_positions col) = (r, c)
      rw [if_pos hcur.symm]
      simp [e2.1, e2.2]
    · rw [if_neg e2] at hk
      have hold := hkc col hc r c hv hk
      rw [hkp]
      split_ifs with hlow
      · show (if col = st.current_player then (r2, c2) else st.king_positions col) = (r, c)
        by_cases hcc : col = st.current_player
        · exfalso
          have hcases := toLower_k_cases (hbc r1 c1 hor) hlow
          have hpk : st.board r1 c1 = kingChar col := by
            rcases hcases with hx | hx
            · have hcb : st.current_player = 'b' := by
                rw [hx] at hcol
                have hgc : get_piece_color 'k' = some 'b' := by decide
                rw [hgc] at hcol
                exact (Option.some_inj.mp hcol).symm
              rw [hx, hcc, hcb]
              rfl
            · have hcw : st.current_player = 'w' := by
                rw [hx] at hcol
                have hgc : get_piece_color 'K' = some 'w' := by decide
                rw [hgc] at hcol
                exact (Option.some_inj.mp hcol).symm
              rw [hx, hcc, hcw]
              rfl
          have horig := hkc col hc r1 c1 hor hpk
          rw [hold] at horig
          exact e1 ⟨(Prod.mk.injEq _ _ _ _ ▸ horig).1,
                    (Prod.mk.injEq _ _ _ _ ▸ horig).2⟩
        · rw [if_neg hcc]
          exact hold
      · exact hold

lemma reachable_invariants {ig : Bool} {st : MiniChess} (h : Reachable ig st) :
    BoardChars st ∧ KingConsistent st := by
  induction h with
  | init => exact ⟨initial_BC ig, initial_KC ig⟩
  | step st mv hr hok ih =>
    obtain ⟨hbc, hkc⟩ := ih
    obtain ⟨h1, h2, h3, h4, h5, h6⟩ := make_move_true_inv hok
    rw [h6]
    exact ⟨exec_preserves_BC hbc h1, exec_preserves_KC hbc hkc h1 h4⟩

/-- C7: in the initial state and every state reachable by accepted
validated `make_move` calls, every in-range square holding a color's king
character is exactly the square recorded for that color in
`king_positions` (so while a king is on the board, the mapping points at
it). -/
theorem reachable_king_positions_consistent (ig : Bool) (st : MiniChess)
    (h : Reachable ig st) : KingConsistent st :=
  (reachable_invariants h).2

/-- Witness for C7 at a concrete reachable state, one accepted move after
the initial state. -/
theorem reachable_king_positions_consistent_witness :
    KingConsistent ((make_move (initial false) ((2, 1), (1, 0)) true).2) :=
  reachable_king_positions_consistent false _
    (Reachable.step (initial false) ((2, 1), (1, 0)) Reachable.init (by decide))

